import Mathlib

/-!
Verification of the vector-plotting core of `3_3_2_2_plot_spatial_data.py`
(class `SimpleVectorPlotter`): the ring-orientation normaliser
(`_clockwise` / `_order_vertices`), the polygon path builder
(`_codes` / `_plot_polygon`), the layer registry
(`hide` / `show` / `remove` / `_set_graphics` / `_same_type`), and the
default colour rotation (`_init_colors` / `_next_color_new`).

Coordinates are embedded as rationals, the registry as an
insertion-ordered association list, the matplotlib canvas as the two
artist lists `axes().lines` and `axes().patches`, and uncaught Python
exceptions as `Option.none`.
-/

namespace PlotSpatial

/-- A 2-D point, the `(x, y)` tuples of the Python code. -/
abbrev Point := ℚ × ℚ

/-- One term `(x - x1) * (y + y1)` of the total accumulated by
`_clockwise`. -/
def edgeTerm (p q : Point) : ℚ := (q.1 - p.1) * (q.2 + p.2)

/-- The loop of `_clockwise`: accumulate `edgeTerm` along consecutive
points after `prev`, then add the wrap-around term back to `first`. -/
def shoelaceFrom (prev first : Point) : List Point → ℚ
  | [] => edgeTerm prev first
  | q :: rest => edgeTerm prev q + shoelaceFrom q first rest

/-- The total computed by `_clockwise` (`0` for the empty list, on which
the Python code instead raises `IndexError`). -/
def clockwiseSum : List Point → ℚ
  | [] => 0
  | p :: rest => shoelaceFrom p p rest

/-- `_clockwise`: `total > 0`.  `none` models the uncaught `IndexError`
raised by `data[0]` on an empty list. -/
def isClockwise : List Point → Option Bool
  | [] => none
  | p :: rest => some (decide (clockwiseSum (p :: rest) > 0))

/-- The closing step of `_order_vertices`: if `data[0] != data[-1]`,
append a copy of `data[0]`. -/
def closeRing : List Point → List Point
  | [] => []
  | p :: rest => if rest.getLastD p ≠ p then (p :: rest) ++ [p] else p :: rest

/-- `_order_vertices(data, clockwise)`.  The source line
`self._clockwise(data) != clockwise or data.reverse()` short-circuits, so
the list is reversed exactly when `_clockwise(data) == clockwise`. -/
def orderVertices (data : List Point) (clockwise : Bool) : Option (List Point) :=
  match isClockwise data with
  | none => none
  | some b => some (closeRing (if b != clockwise then data else data.reverse))

/-- The two matplotlib path instruction codes used by `_codes`. -/
inductive PathCode
  | moveTo
  | lineTo
  deriving DecidableEq

/-- `_codes`: an array of `LINETO` with the first entry overwritten by
`MOVETO`.  `none` models the `IndexError` of `codes[0] = Path.MOVETO`
on an empty ring. -/
def ringCodes : List Point → Option (List PathCode)
  | [] => none
  | _ :: rest => some (PathCode.moveTo :: List.replicate rest.length PathCode.lineTo)

/-- The list comprehension
`[self._order_vertices(d, False) for d in data[1:]]` of `_plot_polygon`. -/
def orderHoles : List (List Point) → Option (List (List Point))
  | [] => some []
  | d :: ds =>
      match orderVertices d false, orderHoles ds with
      | some r, some rs => some (r :: rs)
      | _, _ => none

/-- The concatenation `[self._codes(outer)] + [self._codes(i) for i in inner]`
of `_plot_polygon`, flattened by `np.concatenate`. -/
def catCodes : List (List Point) → Option (List PathCode)
  | [] => some []
  | r :: rs =>
      match ringCodes r, catCodes rs with
      | some c, some cs => some (c ++ cs)
      | _, _ => none

/-- The geometric core of `_plot_polygon`: normalise the outer ring with
flag `True` and every hole with flag `False`, then concatenate all
vertices into one buffer and all codes into a parallel buffer.  `none`
models any uncaught exception (`data[0]` on an empty polygon, or a
degenerate ring). -/
def plotPolygonPath (data : List (List Point)) : Option (List Point × List PathCode) :=
  match data with
  | [] => none
  | outer0 :: holes0 =>
      match orderVertices outer0 true, orderHoles holes0 with
      | some outer, some inner =>
          match ringCodes outer, catCodes inner with
          | some c0, some cs => some (outer ++ inner.flatten, c0 ++ cs)
          | _, _ => none
      | _, _ => none

/-- The spec's description of one ring's contribution to the instruction
buffer: one `MoveTo` for the first vertex, then `ring length - 1`
`LineTo` instructions. -/
def specRingCodes (r : List Point) : List PathCode :=
  PathCode.moveTo :: List.replicate (r.length - 1) PathCode.lineTo

/-- The open-path part of the `_clockwise` total: the sum of `edgeTerm`
over consecutive pairs, without the wrap-around term. -/
def pathSum : List Point → ℚ
  | p :: q :: rest => edgeTerm p q + pathSum (q :: rest)
  | _ => 0

/-- The three matplotlib artist classes the registry distinguishes:
`mpl.lines.Line2D`, `mpl.patches.Polygon` and `mpl.patches.PathPatch`. -/
inductive PrimClass
  | line2D
  | polygon
  | pathPatch
  deriving DecidableEq

/-- A drawn primitive: its artist class, the length of its data
(`len(get_xdata())` for a `Line2D`), its style record, and an identity
tag modelling Python object identity. -/
structure Primitive where
  cls : PrimClass
  nPoints : ℕ
  style : String
  uid : ℕ
  deriving DecidableEq

/-- `get_xdata` exists only on `Line2D`; `none` models the
`AttributeError` raised when it is looked up on a patch. -/
def getXdataLen (g : Primitive) : Option ℕ :=
  match g.cls with
  | PrimClass.line2D => some g.nPoints
  | _ => none

/-- `_same_type(graphic1, graphic2)`.  `none` models the uncaught
`AttributeError` raised by `graphic1.get_xdata()` when both graphics are
`PathPatch`es (the class check on line 318 only exempts
`mpl.patches.Polygon`). -/
def sameType (g1 g2 : Primitive) : Option Bool :=
  if g1.cls ≠ g2.cls then some false
  else if g1.cls = PrimClass.polygon then some true
  else
    match getXdataLen g1, getXdataLen g2 with
    | some n1, some n2 =>
        if n1 = n2 then some true
        else some (decide (n1 > 1) && decide (n2 > 1))
    | _, _ => none

/-- `Artist.update_from`: copy the style of `styled` onto `g`, keeping
`g`'s own data. -/
def updateFrom (g styled : Primitive) : Primitive :=
  { g with style := styled.style }

/-- A key of the `_graphics` dict: an explicit string name, or the
ordinal `len(self._graphics)` assigned when the name argument is the
falsy empty string. -/
inductive LayerKey
  | ord (n : ℕ)
  | str (s : String)
  deriving DecidableEq

/-- The `_graphics` dict, as an insertion-ordered association list. -/
abbrev Registry := List (LayerKey × List Primitive)

/-- Python `d[k]` (as an `Option`, where `none` is the `KeyError`). -/
def dictLookup : Registry → LayerKey → Option (List Primitive)
  | [], _ => none
  | (k, v) :: rest, key => if k = key then some v else dictLookup rest key

/-- Python `d[k] = v`: overwrite in place, or append a new entry. -/
def dictInsert : Registry → LayerKey → List Primitive → Registry
  | [], key, v => [(key, v)]
  | (k, w) :: rest, key, v =>
      if k = key then (k, v) :: rest else (k, w) :: dictInsert rest key v

/-- Python `del d[k]` with the `KeyError` swallowed: drop the entry if
present. -/
def dictErase : Registry → LayerKey → Registry
  | [], _ => []
  | (k, w) :: rest, key => if k = key then rest else (k, w) :: dictErase rest key

/-- The plotter state: the `_graphics` registry, the canvas artist lists
`plt.axes().lines` and `plt.axes().patches`, and the colour rotation
(`self.colors`, `self.current_color`). -/
structure PState where
  graphics : Registry
  lines : List Primitive
  patches : List Primitive
  colors : List String
  currentColor : ℤ
  deriving DecidableEq

/-- The loop body of `hide`: `axes().lines.remove(graphic)` (or
`.patches.remove`) for each graphic in turn.  A missing element raises
`ValueError`, which `hide` catches, abandoning the rest of the loop but
keeping the removals already made. -/
def removeAll (canvas : List Primitive) : List Primitive → List Primitive
  | [] => canvas
  | g :: rest => if g ∈ canvas then removeAll (canvas.erase g) rest else canvas

/-- `hide(name)`: detach the layer's graphics from the canvas list picked
by the class of the first graphic.  `none` models the uncaught
`IndexError` of `graphics[0]` on an empty layer; a missing name
(`KeyError`) is a no-op. -/
def hide (st : PState) (name : LayerKey) : Option PState :=
  match dictLookup st.graphics name with
  | none => some st
  | some [] => none
  | some (g :: gs) =>
      match g.cls with
      | PrimClass.line2D => some { st with lines := removeAll st.lines (g :: gs) }
      | _ => some { st with patches := removeAll st.patches (g :: gs) }

/-- `show(name)`: re-attach the layer's graphics with
`axes().add_line` / `axes().add_patch`, which append to the artist
lists.  `none` models the uncaught `IndexError` on an empty layer; a
missing name (`KeyError`) is a no-op. -/
def showLayer (st : PState) (name : LayerKey) : Option PState :=
  match dictLookup st.graphics name with
  | none => some st
  | some [] => none
  | some (g :: gs) =>
      match g.cls with
      | PrimClass.line2D => some { st with lines := st.lines ++ (g :: gs) }
      | _ => some { st with patches := st.patches ++ (g :: gs) }

/-- `remove(name)`: `hide` then `del self._graphics[name]`, with the
`KeyError` of the `del` swallowed by the surrounding `try`. -/
def remove (st : PState) (name : LayerKey) : Option PState :=
  match hide st name with
  | none => none
  | some st1 => some { st1 with graphics := dictErase st1.graphics name }

/-- `name = name or len(self._graphics)`: the empty-string default picks
the ordinal equal to the current registry size. -/
def resolveName (nameArg : Option String) (st : PState) : LayerKey :=
  match nameArg with
  | some s => LayerKey.str s
  | none => LayerKey.ord st.graphics.length

/-- `_set_graphics(graphics, name, has_symbol)`: on a name collision,
hide the old occupant, and when no explicit style was given and the new
and old first graphics are `_same_type`, copy the old style onto every
new graphic; then store the new graphics.  `none` models an uncaught
exception (an `IndexError` from `graphics[0]`, or the `AttributeError`
out of `_same_type`). -/
def setGraphics (st : PState) (graphics : List Primitive) (nameArg : Option String)
    (hasSymbol : Bool) : Option PState :=
  let name := resolveName nameArg st
  match dictLookup st.graphics name with
  | none => some { st with graphics := dictInsert st.graphics name graphics }
  | some old =>
      match hide st name with
      | none => none
      | some st1 =>
          match
            (if hasSymbol then some graphics
             else
               match graphics, old with
               | g :: _, o :: _ =>
                   match sameType g o with
                   | none => none
                   | some true => some (graphics.map (fun x => updateFrom x o))
                   | some false => some graphics
               | _, _ => none)
          with
          | none => none
          | some newG => some { st1 with graphics := dictInsert st1.graphics name newG }

/-- The canvas artist list a primitive of class `c` lives on. -/
def canvasFor (st : PState) (c : PrimClass) : List Primitive :=
  match c with
  | PrimClass.line2D => st.lines
  | _ => st.patches

/-- `_next_color_new`: advance `self.current_color`, wrap to 0 past the
end of the palette, and return that palette entry. -/
def nextColorNew (st : PState) : String × PState :=
  let c0 := st.currentColor + 1
  let c := if c0 ≥ (st.colors.length : ℤ) then 0 else c0
  (st.colors.getD c.toNat (""), { st with currentColor := c })

/-- The fill-colour resolution of `plot_polygon` (lines 171-173) and
`plot_multipolygon` (lines 144-146): an explicit `facecolor`/`fc` kwarg
wins, else a truthy `color` argument, else the next palette colour. -/
def polygonFc (st : PState) (color : Option String) (fcKwarg : Option String) :
    String × PState :=
  match fcKwarg with
  | some c => (c, st)
  | none =>
      match color with
      | some c => (c, st)
      | none => nextColorNew st

/-- The state right after `__init__` / `_init_colors` (matplotlib ≥ 1.5
branch): empty registry and canvas, palette from the prop cycle, colour
cursor at `-1`. -/
def initState (palette : List String) : PState :=
  { graphics := [], lines := [], patches := [], colors := palette, currentColor := -1 }

/-- A plotter state with colour cursor `j`, used to describe the colour
rotation. -/
def stateAtColor (palette : List String) (j : ℕ) : PState :=
  { graphics := [], lines := [], patches := [], colors := palette, currentColor := (j : ℤ) }

/-- The colour produced by the `k`-th implicit-colour request (0-based)
issued from state `st`, paired with the state after it. -/
def nthColor (st : PState) : ℕ → String × PState
  | 0 => nextColorNew st
  | k + 1 => nthColor (nextColorNew st).2 k

/-! ### Shoelace algebra -/

lemma edgeTerm_self (p : Point) : edgeTerm p p = 0 := by
  simp [edgeTerm]

lemma edgeTerm_symm (p q : Point) : edgeTerm q p = - edgeTerm p q := by
  simp only [edgeTerm]; ring

lemma shoelaceFrom_eq (l : List Point) : ∀ prev first : Point,
    shoelaceFrom prev first l = pathSum (prev :: l) + edgeTerm (l.getLastD prev) first := by
  induction l with
  | nil => intro prev first; simp [shoelaceFrom, pathSum]
  | cons q rest ih =>
      intro prev first
      rw [show shoelaceFrom prev first (q :: rest) =
            edgeTerm prev q + shoelaceFrom q first rest from rfl,
        ih q first, List.getLastD_cons,
        show pathSum (prev :: q :: rest) = edgeTerm prev q + pathSum (q :: rest) from rfl]
      ring

lemma clockwiseSum_cons (p : Point) (rest : List Point) :
    clockwiseSum (p :: rest) = pathSum (p :: rest) + edgeTerm (rest.getLastD p) p := by
  rw [show clockwiseSum (p :: rest) = shoelaceFrom p p rest from rfl, shoelaceFrom_eq]

lemma pathSum_concat (l : List Point) (q : Point) :
    pathSum (l ++ [q]) = pathSum l + edgeTerm (l.getLastD q) q := by
  induction l with
  | nil => simp [pathSum, edgeTerm_self]
  | cons p rest ih =>
      cases rest with
      | nil => simp [pathSum, edgeTerm_self]
      | cons r rest' =>
          simp only [List.cons_append] at ih ⊢
          simp only [pathSum]
          rw [ih]
          simp only [List.getLastD_cons]
          ring

lemma pathSum_reverse (l : List Point) : pathSum l.reverse = - pathSum l := by
  induction l with
  | nil => simp [pathSum]
  | cons p rest ih =>
      rw [List.reverse_cons, pathSum_concat, ih]
      cases rest with
      | nil => simp [pathSum, edgeTerm_self]
      | cons r rest' =>
          rw [List.reverse_cons, List.getLastD_concat]
          simp only [pathSum]
          rw [edgeTerm_symm p r]
          ring

lemma getLastOpt_cons_getLastD : ∀ (rest : List Point) (p : Point),
    (p :: rest).getLast? = some (rest.getLastD p)
  | [], _ => rfl
  | r :: rest', p => by
      rw [List.getLast?_cons_cons, getLastOpt_cons_getLastD rest' r, List.getLastD_cons]

lemma clockwiseSum_reverse (p : Point) (rest : List Point) :
    clockwiseSum ((p :: rest).reverse) = - clockwiseSum (p :: rest) := by
  cases hrev : (p :: rest).reverse with
  | nil => exact absurd (congrArg List.length hrev) (by simp)
  | cons q t =>
      have hq : rest.getLastD p = q := by
        have h1 : (p :: rest).getLast? = some q := by
          rw [← List.head?_reverse, hrev]; rfl
        rw [getLastOpt_cons_getLastD] at h1
        exact Option.some.inj h1
      have ht : t.getLastD q = p := by
        have h1 : (q :: t).getLast? = some p := by
          rw [← hrev, List.getLast?_reverse]; rfl
        rw [getLastOpt_cons_getLastD] at h1
        exact Option.some.inj h1
      rw [clockwiseSum_cons q t, ht, ← hrev, pathSum_reverse,
        clockwiseSum_cons p rest, hq, edgeTerm_symm q p]
      ring

/-! ### Ring closing and `_order_vertices` -/

lemma closeRing_cons (p : Point) (rest : List Point) :
    ∃ t, closeRing (p :: rest) = p :: t ∧ t.getLastD p = p := by
  by_cases h : rest.getLastD p ≠ p
  · refine ⟨rest ++ [p], ?_, ?_⟩
    · simp only [closeRing]; rw [if_pos h]; rfl
    · exact List.getLastD_concat p p rest
  · refine ⟨rest, ?_, not_ne_iff.mp h⟩
    simp only [closeRing]; rw [if_neg h]

lemma closeRing_of_closed (p : Point) (t : List Point) (h : t.getLastD p = p) :
    closeRing (p :: t) = p :: t := by
  simp only [closeRing]; rw [if_neg (not_ne_iff.mpr h)]

lemma clockwiseSum_closeRing (p : Point) (rest : List Point) :
    clockwiseSum (closeRing (p :: rest)) = clockwiseSum (p :: rest) := by
  simp only [closeRing]
  by_cases h : rest.getLastD p ≠ p
  · rw [if_pos h,
      show (p :: rest) ++ [p] = p :: (rest ++ [p]) from rfl,
      clockwiseSum_cons, clockwiseSum_cons, List.getLastD_concat, edgeTerm_self,
      show p :: (rest ++ [p]) = (p :: rest) ++ [p] from rfl,
      pathSum_concat, List.getLastD_cons]
    ring
  · rw [if_neg h]

lemma orderVertices_eq (p : Point) (rest : List Point) (w : Bool) :
    orderVertices (p :: rest) w =
      some (closeRing (if (decide (clockwiseSum (p :: rest) > 0)) != w
        then p :: rest else (p :: rest).reverse)) := rfl

lemma orderVertices_closed (p : Point) (rest : List Point) (w : Bool) :
    ∃ q t, orderVertices (p :: rest) w = some (q :: t) ∧ t.getLastD q = q ∧
      clockwiseSum (q :: t) =
        (if (decide (clockwiseSum (p :: rest) > 0)) != w then clockwiseSum (p :: rest)
         else - clockwiseSum (p :: rest)) := by
  rw [orderVertices_eq]
  by_cases hb : (decide (clockwiseSum (p :: rest) > 0) != w) = true
  · rw [if_pos hb, if_pos hb]
    obtain ⟨t, h1, h2⟩ := closeRing_cons p rest
    refine ⟨p, t, by rw [h1], h2, ?_⟩
    rw [← h1, clockwiseSum_closeRing]
  · rw [if_neg hb, if_neg hb]
    cases hrev : (p :: rest).reverse with
    | nil => exact absurd (congrArg List.length hrev) (by simp)
    | cons q t0 =>
        obtain ⟨t, h1, h2⟩ := closeRing_cons q t0
        refine ⟨q, t, by rw [h1], h2, ?_⟩
        rw [← h1, clockwiseSum_closeRing, ← hrev, clockwiseSum_reverse]

lemma orderVertices_keep (q : Point) (t : List Point) (w : Bool)
    (hcl : t.getLastD q = q)
    (hkeep : (decide (clockwiseSum (q :: t) > 0) != w) = true) :
    orderVertices (q :: t) w = some (q :: t) := by
  rw [orderVertices_eq, if_pos hkeep, closeRing_of_closed q t hcl]

lemma orderVertices_some (p : Point) (rest : List Point) (w : Bool) :
    ∃ q t, orderVertices (p :: rest) w = some (q :: t) := by
  obtain ⟨q, t, h, -, -⟩ := orderVertices_closed p rest w
  exact ⟨q, t, h⟩

/-- C9: `_order_vertices` fails (the `IndexError` of `data[0]` inside
`_clockwise`, the failure the spec calls `DegenerateRing`) exactly on a
ring with fewer than one point; on any ring with at least one point it
returns normally. -/
theorem orderVertices_none_iff_empty (data : List Point) (w : Bool) :
    orderVertices data w = none ↔ data = [] := by
  cases data with
  | nil => simp [orderVertices, isClockwise]
  | cons p rest => simp [orderVertices_eq]

/-- C2: at the clockwise ring `[(0,0), (0,1), (1,1)]` (its `_clockwise`
total is `1 > 0`), `_order_vertices(ring, True)` reverses the points even
though the current orientation already equals the requested one, and the
returned ring's total is `-1 < 0` — the opposite sign of what the claim
requires. -/
theorem orderVertices_reverses_clockwise_ring :
    clockwiseSum [((0:ℚ), (0:ℚ)), (0, 1), (1, 1)] > 0 ∧
    orderVertices [((0:ℚ), (0:ℚ)), (0, 1), (1, 1)] true =
      some [((1:ℚ), (1:ℚ)), (0, 1), (0, 0), (1, 1)] ∧
    clockwiseSum [((1:ℚ), (1:ℚ)), (0, 1), (0, 0), (1, 1)] < 0 := by
  refine ⟨by norm_num [clockwiseSum, shoelaceFrom, edgeTerm], ?_,
    by norm_num [clockwiseSum, shoelaceFrom, edgeTerm]⟩
  norm_num [orderVertices, isClockwise, clockwiseSum, shoelaceFrom, edgeTerm,
    closeRing, Prod.ext_iff]

/-- C6, counterexample: the degenerate (zero-total) ring
`[(0,0), (1,0), (2,0)]` with `clockwise=False` is reversed and closed to
`[(2,0), (1,0), (0,0), (2,0)]`; a second `_order_vertices` call reverses
again, yielding `[(2,0), (0,0), (1,0), (2,0)]`, so the normaliser is not
idempotent as claimed. -/
theorem orderVertices_not_idempotent :
    (orderVertices [((0:ℚ), (0:ℚ)), (1, 0), (2, 0)] false).bind
        (fun r => orderVertices r false) ≠
      orderVertices [((0:ℚ), (0:ℚ)), (1, 0), (2, 0)] false := by
  norm_num [orderVertices, isClockwise, clockwiseSum, shoelaceFrom, edgeTerm,
    closeRing, Prod.ext_iff, Option.bind]

/-- C6, amended: `_order_vertices` is idempotent on every ring with at
least one point provided the requested flag is `True` or the ring's
`_clockwise` total is nonzero (a zero-total ring normalised with flag
`False` is reversed again on the second call). -/
theorem orderVertices_idempotent_of (data : List Point) (w : Bool)
    (h1 : data ≠ []) (h2 : w = true ∨ clockwiseSum data ≠ 0) :
    ∃ r, orderVertices data w = some r ∧ orderVertices r w = some r := by
  cases data with
  | nil => exact absurd rfl h1
  | cons p rest =>
      obtain ⟨q, t, hov, hcl, hsum⟩ := orderVertices_closed p rest w
      refine ⟨q :: t, hov, orderVertices_keep q t w hcl ?_⟩
      by_cases hb : (decide (clockwiseSum (p :: rest) > 0) != w) = true
      · rw [if_pos hb] at hsum
        rw [hsum]
        exact hb
      · rw [if_neg hb] at hsum
        rw [hsum]
        have hb' : decide (clockwiseSum (p :: rest) > 0) = w := by
          simpa using hb
        cases w with
        | true =>
            have hs : clockwiseSum (p :: rest) > 0 := of_decide_eq_true hb'
            have hns : ¬(-clockwiseSum (p :: rest) > 0) := by linarith
            rw [decide_eq_false hns]
            rfl
        | false =>
            have hs0 : ¬(clockwiseSum (p :: rest) > 0) := of_decide_eq_false hb'
            have hne : clockwiseSum (p :: rest) ≠ 0 := by
              cases h2 with
              | inl h => exact absurd h (by simp)
              | inr h => exact h
            have hs : -clockwiseSum (p :: rest) > 0 := by
              rcases lt_trichotomy (clockwiseSum (p :: rest)) 0 with h | h | h
              · linarith
              · exact absurd h hne
              · exact absurd h hs0
            rw [decide_eq_true hs]
            rfl

/-- Witness for C6's amended theorem at the ring `[(0,0), (0,1), (1,1)]`
with flag `True`. -/
theorem orderVertices_idempotent_witness :
    ∃ r, orderVertices [((0:ℚ), (0:ℚ)), (0, 1), (1, 1)] true = some r ∧
      orderVertices r true = some r :=
  orderVertices_idempotent_of _ true (by simp) (Or.inl rfl)

lemma ringCodes_eq_spec (q : Point) (t : List Point) :
    ringCodes (q :: t) = some (specRingCodes (q :: t)) := by
  simp [ringCodes, specRingCodes]

lemma orderHoles_spec (hs : List (List Point)) :
    (∀ h ∈ hs, h ≠ []) →
    ∃ inner, orderHoles hs = some inner ∧
      catCodes inner = some ((inner.map specRingCodes).flatten) := by
  induction hs with
  | nil => exact fun _ => ⟨[], rfl, rfl⟩
  | cons d ds ih =>
      intro hall
      cases d with
      | nil => exact absurd rfl (hall [] (by simp))
      | cons p rest =>
          obtain ⟨q, t, hov⟩ := orderVertices_some p rest false
          obtain ⟨inner, hh1, hh2⟩ := ih (fun x hx => hall x (by simp [hx]))
          refine ⟨(q :: t) :: inner, ?_, ?_⟩
          · simp [orderHoles, hov, hh1]
          · simp [catCodes, ringCodes_eq_spec, hh2]

/-- C3: for a polygon given as an outer ring and holes (each with at
least one point), `_plot_polygon` builds the vertex buffer as the
normalised outer ring followed by the normalised holes in their given
order, and a parallel code buffer in which each normalised ring
contributes one `MOVETO` followed by `length - 1` `LINETO`s. -/
theorem polygon_path_buffers (outer0 : List Point) (holes0 : List (List Point))
    (h1 : outer0 ≠ []) (h2 : ∀ h ∈ holes0, h ≠ []) :
    ∃ outer inner,
      orderVertices outer0 true = some outer ∧
      orderHoles holes0 = some inner ∧
      plotPolygonPath (outer0 :: holes0) =
        some (outer ++ inner.flatten,
          specRingCodes outer ++ (inner.map specRingCodes).flatten) := by
  cases outer0 with
  | nil => exact absurd rfl h1
  | cons p rest =>
      obtain ⟨q, t, hov⟩ := orderVertices_some p rest true
      obtain ⟨inner, hh1, hh2⟩ := orderHoles_spec holes0 h2
      refine ⟨q :: t, inner, hov, hh1, ?_⟩
      simp [plotPolygonPath, hov, hh1, ringCodes_eq_spec, hh2]

/-- Witness for C3 at the one-ring polygon `[[(0,0), (0,1), (1,1)]]`. -/
theorem polygon_path_buffers_witness :
    ∃ outer inner,
      orderVertices [((0:ℚ), (0:ℚ)), (0, 1), (1, 1)] true = some outer ∧
      orderHoles ([] : List (List Point)) = some inner ∧
      plotPolygonPath [[((0:ℚ), (0:ℚ)), (0, 1), (1, 1)]] =
        some (outer ++ inner.flatten,
          specRingCodes outer ++ (inner.map specRingCodes).flatten) :=
  polygon_path_buffers _ _ (by simp) (by simp)

/-! ### Layer registry -/

lemma dictErase_of_none (d : Registry) (k : LayerKey) (h : dictLookup d k = none) :
    dictErase d k = d := by
  induction d with
  | nil => rfl
  | cons e rest ih =>
      obtain ⟨k0, v0⟩ := e
      simp only [dictLookup] at h
      simp only [dictErase]
      by_cases hk : k0 = k
      · rw [if_pos hk] at h; cases h
      · rw [if_neg hk] at h
        rw [if_neg hk, ih h]

/-- C8: for a name missing from `_graphics`, `hide`, `show` and `remove`
all return normally (the `KeyError` is swallowed) and leave the registry
and both canvas lists untouched. -/
theorem absent_layer_noops (st : PState) (name : LayerKey)
    (h : dictLookup st.graphics name = none) :
    hide st name = some st ∧ showLayer st name = some st ∧
      remove st name = some st := by
  have hh : hide st name = some st := by simp only [hide, h]
  refine ⟨hh, by simp only [showLayer, h], ?_⟩
  simp only [remove, hh, dictErase_of_none st.graphics name h]

/-- Witness for C8 at a fresh plotter and the name `"ghost"`. -/
theorem absent_layer_noops_witness :
    hide (initState ["red"]) (LayerKey.str ("ghost")) = some (initState ["red"]) ∧
    showLayer (initState ["red"]) (LayerKey.str ("ghost")) = some (initState ["red"]) ∧
    remove (initState ["red"]) (LayerKey.str ("ghost")) = some (initState ["red"]) :=
  absent_layer_noops (initState ["red"]) (LayerKey.str ("ghost")) rfl

lemma removeAll_append_perm (gs : List Primitive) :
    ∀ canvas : List Primitive, gs.Nodup → (∀ x ∈ gs, x ∈ canvas) →
      (removeAll canvas gs ++ gs).Perm canvas := by
  induction gs with
  | nil => intro canvas _ _; simp [removeAll]
  | cons g rest ih =>
      intro canvas hnd hat
      have hg : g ∈ canvas := hat g (by simp)
      rw [show removeAll canvas (g :: rest) = removeAll (canvas.erase g) rest from by
        simp [removeAll, hg]]
      have hnd2 := List.nodup_cons.mp hnd
      have hat2 : ∀ x ∈ rest, x ∈ canvas.erase g := by
        intro x hx
        have hne : x ≠ g := fun he => hnd2.1 (he ▸ hx)
        exact (List.mem_erase_of_ne hne).mpr (hat x (by simp [hx]))
      refine List.Perm.trans List.perm_middle ?_
      refine List.Perm.trans (List.Perm.cons g (ih (canvas.erase g) hnd2.2 hat2)) ?_
      exact (List.perm_cons_erase hg).symm

lemma removeAll_count (gs canvas : List Primitive) (hnd : gs.Nodup)
    (hat : ∀ x ∈ gs, x ∈ canvas) (x : Primitive) (hx : x ∈ gs) :
    List.count x (removeAll canvas gs) + 1 = List.count x canvas := by
  have h := (removeAll_append_perm gs canvas hnd hat).count_eq x
  rw [List.count_append, List.count_eq_one_of_mem hnd hx] at h
  exact h

/-- C4, amended: for a layer holding at least one primitive, pairwise
distinct and all attached to the one artist list selected by the class
of the layer's first primitive (in particular, any single-class layer,
as every `SimpleVectorPlotter.plot_*` method creates), `hide` then
`show` detaches each primitive exactly once and re-attaches it exactly
once, leaves the registry entry untouched, and restores the canvas up
to ordering (no duplication, no loss).  A mixed-class layer, reachable
via a `GEOMETRYCOLLECTION`, breaks the original claim: see the
counterexample below. -/
theorem hide_show_roundtrip (st : PState) (name : LayerKey) (g : Primitive)
    (gs : List Primitive)
    (hlk : dictLookup st.graphics name = some (g :: gs))
    (hnd : (g :: gs).Nodup)
    (hat : ∀ x ∈ (g :: gs), x ∈ canvasFor st g.cls) :
    ∃ st1 st2,
      hide st name = some st1 ∧
      showLayer st1 name = some st2 ∧
      st2.graphics = st.graphics ∧
      st2.lines.Perm st.lines ∧
      st2.patches.Perm st.patches ∧
      (∀ x ∈ (g :: gs), List.count x (canvasFor st1 g.cls) + 1 =
        List.count x (canvasFor st g.cls)) ∧
      (∀ x ∈ (g :: gs), List.count x (canvasFor st2 g.cls) =
        List.count x (canvasFor st g.cls)) := by
  have hperm := removeAll_append_perm (g :: gs)
  cases hc : g.cls with
  | line2D =>
      simp only [hc, canvasFor] at hat ⊢
      refine ⟨{ st with lines := removeAll st.lines (g :: gs) },
        { st with lines := removeAll st.lines (g :: gs) ++ (g :: gs) },
        ?_, ?_, rfl, ?_, List.Perm.refl _, ?_, ?_⟩
      · simp [hide, hlk, hc]
      · simp [showLayer, hlk, hc]
      · exact hperm st.lines hnd hat
      · exact fun x hx => removeAll_count (g :: gs) st.lines hnd hat x hx
      · exact fun x _ => (hperm st.lines hnd hat).count_eq x
  | polygon =>
      simp only [hc, canvasFor] at hat ⊢
      refine ⟨{ st with patches := removeAll st.patches (g :: gs) },
        { st with patches := removeAll st.patches (g :: gs) ++ (g :: gs) },
        ?_, ?_, rfl, List.Perm.refl _, ?_, ?_, ?_⟩
      · simp [hide, hlk, hc]
      · simp [showLayer, hlk, hc]
      · exact hperm st.patches hnd hat
      · exact fun x hx => removeAll_count (g :: gs) st.patches hnd hat x hx
      · exact fun x _ => (hperm st.patches hnd hat).count_eq x
  | pathPatch =>
      simp only [hc, canvasFor] at hat ⊢
      refine ⟨{ st with patches := removeAll st.patches (g :: gs) },
        { st with patches := removeAll st.patches (g :: gs) ++ (g :: gs) },
        ?_, ?_, rfl, List.Perm.refl _, ?_, ?_, ?_⟩
      · simp [hide, hlk, hc]
      · simp [showLayer, hlk, hc]
      · exact hperm st.patches hnd hat
      · exact fun x hx => removeAll_count (g :: gs) st.patches hnd hat x hx
      · exact fun x _ => (hperm st.patches hnd hat).count_eq x

/-- A concrete `Line2D` primitive used by witnesses. -/
def lineG : Primitive :=
  { cls := PrimClass.line2D, nPoints := 3, style := "green", uid := 7 }

/-- A plotter state holding the line layer `"roads"`, attached. -/
def stLine : PState :=
  { graphics := [(LayerKey.str ("roads"), [lineG])], lines := [lineG], patches := [],
    colors := [], currentColor := -1 }

/-- Witness for C4 at the one-line layer `"roads"`. -/
theorem hide_show_roundtrip_witness :
    ∃ st1 st2,
      hide stLine (LayerKey.str ("roads")) = some st1 ∧
      showLayer st1 (LayerKey.str ("roads")) = some st2 ∧
      st2.graphics = stLine.graphics ∧
      st2.lines.Perm stLine.lines ∧
      st2.patches.Perm stLine.patches ∧
      (∀ x ∈ (lineG :: []), List.count x (canvasFor st1 lineG.cls) + 1 =
        List.count x (canvasFor stLine lineG.cls)) ∧
      (∀ x ∈ (lineG :: []), List.count x (canvasFor st2 lineG.cls) =
        List.count x (canvasFor stLine lineG.cls)) :=
  hide_show_roundtrip stLine (LayerKey.str ("roads")) lineG [] rfl (by simp)
    (by simp [canvasFor, lineG, stLine])

/-- C10: `show` on a layer that is already attached appends every one of
its primitives to the canvas a second time (each then occurs at least
twice), leaving the registry entry unchanged — it is not a no-op. -/
theorem show_attaches_again (st : PState) (name : LayerKey) (g : Primitive)
    (gs : List Primitive)
    (hlk : dictLookup st.graphics name = some (g :: gs))
    (hat : ∀ x ∈ (g :: gs), x ∈ canvasFor st g.cls) :
    ∃ st2, showLayer st name = some st2 ∧
      st2.graphics = st.graphics ∧
      canvasFor st2 g.cls = canvasFor st g.cls ++ (g :: gs) ∧
      ∀ x ∈ (g :: gs), 2 ≤ List.count x (canvasFor st2 g.cls) := by
  cases hc : g.cls with
  | line2D =>
      simp only [hc, canvasFor] at hat ⊢
      refine ⟨{ st with lines := st.lines ++ (g :: gs) }, ?_, rfl, rfl, ?_⟩
      · simp [showLayer, hlk, hc]
      · intro x hx
        rw [List.count_append]
        have h1 : 1 ≤ List.count x st.lines := List.one_le_count_iff.mpr (hat x hx)
        have h2 : 1 ≤ List.count x (g :: gs) := List.one_le_count_iff.mpr hx
        omega
  | polygon =>
      simp only [hc, canvasFor] at hat ⊢
      refine ⟨{ st with patches := st.patches ++ (g :: gs) }, ?_, rfl, rfl, ?_⟩
      · simp [showLayer, hlk, hc]
      · intro x hx
        rw [List.count_append]
        have h1 : 1 ≤ List.count x st.patches := List.one_le_count_iff.mpr (hat x hx)
        have h2 : 1 ≤ List.count x (g :: gs) := List.one_le_count_iff.mpr hx
        omega
  | pathPatch =>
      simp only [hc, canvasFor] at hat ⊢
      refine ⟨{ st with patches := st.patches ++ (g :: gs) }, ?_, rfl, rfl, ?_⟩
      · simp [showLayer, hlk, hc]
      · intro x hx
        rw [List.count_append]
        have h1 : 1 ≤ List.count x st.patches := List.one_le_count_iff.mpr (hat x hx)
        have h2 : 1 ≤ List.count x (g :: gs) := List.one_le_count_iff.mpr hx
        omega

/-- A concrete `PathPatch` primitive used by the C10 witness. -/
def patchG : Primitive :=
  { cls := PrimClass.pathPatch, nPoints := 5, style := "teal", uid := 3 }

/-- A plotter state holding the polygon layer `"lakes"`, attached. -/
def stPatch : PState :=
  { graphics := [(LayerKey.str ("lakes"), [patchG])], lines := [], patches := [patchG],
    colors := [], currentColor := -1 }

/-- Witness for C10 at the one-patch layer `"lakes"`. -/
theorem show_attaches_again_witness :
    ∃ st2, showLayer stPatch (LayerKey.str ("lakes")) = some st2 ∧
      st2.graphics = stPatch.graphics ∧
      canvasFor st2 patchG.cls = canvasFor stPatch patchG.cls ++ (patchG :: []) ∧
      ∀ x ∈ (patchG :: []), 2 ≤ List.count x (canvasFor st2 patchG.cls) :=
  show_attaches_again stPatch (LayerKey.str ("lakes")) patchG [] rfl
    (by simp [canvasFor, patchG, stPatch])

/-- A mixed-class layer `"mix"` holding a `Line2D` and a `PathPatch`,
each attached to its own artist list, as `_plot_geom` produces for a
`GEOMETRYCOLLECTION` containing a line and a polygon. -/
def stMix : PState :=
  { graphics := [(LayerKey.str ("mix"), [lineG, patchG])], lines := [lineG],
    patches := [patchG], colors := [], currentColor := -1 }

/-- `stMix` after `hide("mix")`: the loop removes from `axes().lines`
only (the first member is a `Line2D`), and `lines.remove(patchG)`
raises `ValueError`, caught on line 95 — `patchG` stays attached. -/
def stMixHidden : PState :=
  { graphics := [(LayerKey.str ("mix"), [lineG, patchG])], lines := [],
    patches := [patchG], colors := [], currentColor := -1 }

/-- `stMixHidden` after `show("mix")`: both members are appended to
`axes().lines`, so `patchG` is now on canvas twice. -/
def stMixShown : PState :=
  { graphics := [(LayerKey.str ("mix"), [lineG, patchG])], lines := [lineG, patchG],
    patches := [patchG], colors := [], currentColor := -1 }

/-- C4, counterexample: on the mixed-class layer `"mix"` (a `Line2D`
followed by a `PathPatch`, both attached), `hide` then `show` does not
restore the canvas: the patch is detached zero times (the `ValueError`
of `lines.remove` is caught, aborting the loop) and then re-attached to
the lines list, so it ends up on canvas twice — duplication, falsifying
the claim. -/
theorem hide_show_mixed_layer_duplicates :
    hide stMix (LayerKey.str ("mix")) = some stMixHidden ∧
    showLayer stMixHidden (LayerKey.str ("mix")) = some stMixShown ∧
    List.count patchG (stMix.lines ++ stMix.patches) = 1 ∧
    List.count patchG (stMixShown.lines ++ stMixShown.patches) = 2 := by
  refine ⟨rfl, rfl, rfl, rfl⟩

/-! ### Style continuity: `_same_type` and `_set_graphics` on `PathPatch`es -/

/-- C5: `_same_type` on two `PathPatch`es — the very class
`_plot_polygon` creates — raises `AttributeError` (`PathPatch` has no
`get_xdata`) instead of returning `True`; only the dead
`mpl.patches.Polygon` special case returns `True`. -/
theorem sameType_pathPatch_raises :
    sameType { cls := PrimClass.pathPatch, nPoints := 4, style := "red", uid := 0 }
      { cls := PrimClass.pathPatch, nPoints := 4, style := "blue", uid := 1 } = none ∧
    sameType { cls := PrimClass.polygon, nPoints := 4, style := "red", uid := 0 }
      { cls := PrimClass.polygon, nPoints := 4, style := "blue", uid := 1 } = some true ∧
    sameType { cls := PrimClass.line2D, nPoints := 4, style := "red", uid := 0 }
      { cls := PrimClass.line2D, nPoints := 4, style := "blue", uid := 1 } = some true := by
  refine ⟨rfl, rfl, rfl⟩

/-- The `PathPatch` drawn for the first `set` of layer `"layer"`. -/
def patchA : Primitive :=
  { cls := PrimClass.pathPatch, nPoints := 4, style := "red", uid := 0 }

/-- The `PathPatch` drawn for the second `set` of layer `"layer"`: same
class and point count as `patchA`, default style. -/
def patchB : Primitive :=
  { cls := PrimClass.pathPatch, nPoints := 4, style := "blue", uid := 1 }

/-- The state just after `_plot_polygon` drew and attached `patchA`,
before its `_set_graphics`. -/
def stA0 : PState :=
  { graphics := [], lines := [], patches := [patchA],
    colors := ["red", "blue"], currentColor := 0 }

/-- The state after the first `set`: layer `"layer"` holds `patchA`. -/
def stA1 : PState :=
  { graphics := [(LayerKey.str ("layer"), [patchA])], lines := [], patches := [patchA],
    colors := ["red", "blue"], currentColor := 0 }

/-- `stA1` after `_plot_polygon` drew and attached `patchB` for the
second call, just before its `_set_graphics`. -/
def stB0 : PState :=
  { graphics := [(LayerKey.str ("layer"), [patchA])], lines := [],
    patches := [patchA, patchB], colors := ["red", "blue"], currentColor := 0 }

/-- C1: replotting the polygon layer `"layer"` with no explicit style
does not restyle: the first `_set_graphics` stores `patchA`, but the
second dies inside `_same_type` (`AttributeError`: `PathPatch` has no
`get_xdata`), so `patchB` never inherits `patchA`'s style and the layer
is never replaced. -/
theorem setGraphics_pathPatch_restyle_raises :
    setGraphics stA0 [patchA] (some ("layer")) false = some stA1 ∧
    setGraphics stB0 [patchB] (some ("layer")) false = none := by
  refine ⟨rfl, rfl⟩

/-! ### Colour rotation -/

lemma nextColorNew_init (cs : List String) (_h : 0 < cs.length) :
    nextColorNew (initState cs) = (cs.getD 0 "", stateAtColor cs 0) := by
  simp [nextColorNew, initState, stateAtColor]

lemma nextColorNew_at (cs : List String) (j : ℕ) (hj : j < cs.length) :
    nextColorNew (stateAtColor cs j) =
      (cs.getD ((j + 1) % cs.length) "", stateAtColor cs ((j + 1) % cs.length)) := by
  simp only [nextColorNew, stateAtColor]
  by_cases hc : ((j : ℤ) + 1 ≥ (cs.length : ℤ))
  · have hlen : j + 1 = cs.length := by omega
    rw [if_pos hc]
    have hz : (j + 1) % cs.length = 0 := by rw [hlen]; exact Nat.mod_self _
    simp [hz]
  · rw [if_neg hc]
    have hm : (j + 1) % cs.length = j + 1 := Nat.mod_eq_of_lt (by omega)
    rw [hm]
    have hcast : (j : ℤ) + 1 = ((j + 1 : ℕ) : ℤ) := by push_cast; ring
    rw [hcast, Int.toNat_natCast]

lemma nthColor_at (cs : List String) (h : 0 < cs.length) :
    ∀ (k j : ℕ), j < cs.length →
      nthColor (stateAtColor cs j) k =
        (cs.getD ((j + 1 + k) % cs.length) "", stateAtColor cs ((j + 1 + k) % cs.length))
  | 0, j, hj => by
      rw [show nthColor (stateAtColor cs j) 0 = nextColorNew (stateAtColor cs j) from rfl,
        nextColorNew_at cs j hj]
  | k + 1, j, hj => by
      rw [show nthColor (stateAtColor cs j) (k + 1) =
          nthColor (nextColorNew (stateAtColor cs j)).2 k from rfl,
        nextColorNew_at cs j hj]
      rw [show ((cs.getD ((j + 1) % cs.length) "",
          stateAtColor cs ((j + 1) % cs.length))).2 =
          stateAtColor cs ((j + 1) % cs.length) from rfl]
      rw [nthColor_at cs h k ((j + 1) % cs.length) (Nat.mod_lt _ h)]
      have hidx : ((j + 1) % cs.length + 1 + k) % cs.length =
          (j + 1 + (k + 1)) % cs.length := by
        rw [add_assoc, Nat.mod_add_mod]
        congr 1
        omega
      rw [hidx]

/-- C7: from a fresh plotter with a palette of at least two colours, the
`k`-th implicit-colour request yields palette entry `k mod length`
(advance by one each call, wrap at the end), and in particular the first
implicitly coloured polygon gets fill `palette[0]` and the next one
`palette[1]`. -/
theorem palette_rotation (cs : List String) (h2 : 2 ≤ cs.length) :
    (∀ k : ℕ, (nthColor (initState cs) k).1 = cs.getD (k % cs.length) "") ∧
    (polygonFc (initState cs) none none).1 = cs.getD 0 "" ∧
    (polygonFc ((polygonFc (initState cs) none none).2) none none).1 = cs.getD 1 "" := by
  have h0 : 0 < cs.length := by omega
  have hall : ∀ k : ℕ, nthColor (initState cs) k =
      (cs.getD (k % cs.length) "", stateAtColor cs (k % cs.length)) := by
    intro k
    cases k with
    | zero =>
        rw [show nthColor (initState cs) 0 = nextColorNew (initState cs) from rfl,
          nextColorNew_init cs h0]
        rw [Nat.zero_mod]
    | succ k =>
        rw [show nthColor (initState cs) (k + 1) =
            nthColor (nextColorNew (initState cs)).2 k from rfl,
          nextColorNew_init cs h0]
        rw [show ((cs.getD 0 "", stateAtColor cs 0)).2 = stateAtColor cs 0 from rfl]
        rw [nthColor_at cs h0 k 0 h0]
        have hidx : (0 + 1 + k) % cs.length = (k + 1) % cs.length := by
          congr 1
          omega
        rw [hidx]
  refine ⟨fun k => by rw [hall k], ?_, ?_⟩
  · rw [show polygonFc (initState cs) none none = nextColorNew (initState cs) from rfl,
      nextColorNew_init cs h0]
  · rw [show polygonFc (initState cs) none none = nextColorNew (initState cs) from rfl,
      nextColorNew_init cs h0,
      show ((cs.getD 0 "", stateAtColor cs 0)).2 = stateAtColor cs 0 from rfl,
      show polygonFc (stateAtColor cs 0) none none = nextColorNew (stateAtColor cs 0) from rfl,
      nextColorNew_at cs 0 h0]
    have h1 : (0 + 1) % cs.length = 1 := Nat.mod_eq_of_lt (by omega)
    rw [h1]

/-- Witness for C7 with the palette `["red", "blue"]`: the first three
implicit colours are red, blue, red again (wrap-around). -/
theorem palette_rotation_witness :
    (nthColor (initState ["red", "blue"]) 0).1 = "red" ∧
    (nthColor (initState ["red", "blue"]) 1).1 = "blue" ∧
    (nthColor (initState ["red", "blue"]) 2).1 = "red" := by
  obtain ⟨hall, -, -⟩ := palette_rotation ["red", "blue"] (by decide)
  refine ⟨?_, ?_, ?_⟩
  · rw [hall 0]; rfl
  · rw [hall 1]; rfl
  · rw [hall 2]; rfl

end PlotSpatial
